import Mathlib

/-!
Verification of the BinarySlicer decoding core (Binary Slicer.py).

Python strings are modelled as `List Char`; Python's `None`-able returns as
`Option`; Python dicts that always carry the same keys as Lean structures.
All definitions are transcribed from the source file; the two exceptions,
marked "Modelled from the spec", model behaviour the specification demands
but the source does not implement, for comparison with the source's
behaviour.
-/

namespace BinarySlicer

/-- ASCII whitespace recognised by Python's `str.strip()`.  (Python also
strips further Unicode space characters; none can occur in the inputs the
claims range over, which are hex/binary digits, `0x` markers and ASCII
separators.) -/
def isPySpace (c : Char) : Bool :=
  c == ' ' || c == '\t' || c == '\n' || c == '\r' || c.toNat == 11 || c.toNat == 12

/-- `clean_input`'s `s.strip()`: drop leading and trailing whitespace. -/
def pyStrip (l : List Char) : List Char :=
  ((l.dropWhile isPySpace).reverse.dropWhile isPySpace).reverse

/-- `clean_input(s)` from the source: `return s.strip()`. -/
def clean_input (s : List Char) : List Char := pyStrip s

/-- The separator characters removed by
`s.replace(" ", "").replace("-", "").replace("_", "")`. -/
def sepB (c : Char) : Bool := c == ' ' || c == '-' || c == '_'

/-- Sequentially replacing each single separator character by the empty
string is filtering them all out. -/
def removeSeps (l : List Char) : List Char := l.filter (fun c => !sepB c)

/-- `if s.startswith(("0x", "0X")): s = s[2:]` from `process_input`. -/
def strip0x (l : List Char) : List Char :=
  match l with
  | '0' :: 'x' :: rest => rest
  | '0' :: 'X' :: rest => rest
  | _ => l

/-- `is_binary(s)`: `all(ch in '01' for ch in s) and len(s) > 0`. -/
def is_binary (s : List Char) : Bool :=
  s.all (fun c => c == '0' || c == '1') && !s.isEmpty

/-- The association of hexadecimal digit characters to their values, used to
model both membership in the source's `HEX_CHARS` set (the 22 keys below are
exactly the characters of `HEX_CHARS`) and the digit values `int(s, 16)`
assigns. -/
def hexPairs : List (Char × Nat) :=
  [('0', 0), ('1', 1), ('2', 2), ('3', 3), ('4', 4), ('5', 5), ('6', 6),
   ('7', 7), ('8', 8), ('9', 9),
   ('a', 10), ('b', 11), ('c', 12), ('d', 13), ('e', 14), ('f', 15),
   ('A', 10), ('B', 11), ('C', 12), ('D', 13), ('E', 14), ('F', 15)]

/-- First-match lookup in an association list. -/
def hexLookup : List (Char × Nat) → Char → Option Nat
  | [], _ => none
  | (k, v) :: rest, c => if c = k then some v else hexLookup rest c

/-- The value of a hexadecimal digit character, `none` for non-digits. -/
def hexVal (c : Char) : Option Nat := hexLookup hexPairs c

/-- `is_hex(s)`: `all(ch in HEX_CHARS for ch in s) and len(s) > 0`. -/
def is_hex (s : List Char) : Bool :=
  s.all (fun c => (hexVal c).isSome) && !s.isEmpty

/-- Models Python's `int(s, 16)` on the strings reachable in this program:
`none` (a `ValueError`) for the empty string or a non-digit character,
otherwise the base-16 value.  (Python's `int` also accepts signs,
underscores, a `0x` marker and surrounding whitespace; `hex_to_binary` is
only ever reached with digit-only strings, where the two agree.) -/
def int16 (s : List Char) : Option Nat :=
  if s.isEmpty then none
  else s.foldl (fun acc c => acc.bind (fun a => (hexVal c).map (fun d => 16 * a + d))) (some 0)

/-- Big-endian binary digits of `v`, empty for `0`; the first argument is
structural-recursion fuel (any fuel `≥ v` computes the digits). -/
def toBinAux : Nat → Nat → List Char
  | 0, _ => []
  | fuel + 1, v =>
    if v = 0 then []
    else toBinAux fuel (v / 2) ++ [if v % 2 = 1 then '1' else '0']

/-- Models Python's `bin(v)[2:]` for `v ≥ 0`: the big-endian binary digits
of `v`, with `"0"` for zero. -/
def natToBin (v : Nat) : List Char :=
  if v = 0 then ['0'] else toBinAux v v

/-- Models Python's `str.zfill(n)`: left-pad with `'0'` to length `n`
(no sign character can occur here). -/
def zfill (l : List Char) (n : Nat) : List Char :=
  List.replicate (n - l.length) '0' ++ l

/-- `hex_to_binary(hex_string)` from the source:
`bin(int(hex_string, 16))[2:].zfill(len(hex_string) * 4)`, with a
`ValueError` (modelled by `none`) when the `int` conversion fails. -/
def hex_to_binary (s : List Char) : Option (List Char) :=
  match int16 s with
  | some v => some (zfill (natToBin v) (4 * s.length))
  | none => none

/-- The normalization pipeline at the head of `process_input`: strip
whitespace, delete separators, strip one `0x`/`0X` marker. -/
def preprocess (raw : List Char) : List Char :=
  strip0x (removeSeps (clean_input raw))

/-- `process_input(input_string)` from the source.  Returns
`(bit string, none)` on success and `(none, error message)` on failure. -/
def process_input (raw : List Char) : Option (List Char) × Option String :=
  let s := preprocess raw
  if is_binary s then (some s, none)
  else if is_hex s then
    match hex_to_binary s with
    | some b => (some b, none)
    | none => (none, some "Invalid hex input.")
  else (none, some "Input must be hex or binary (e.g., 0x1A2B, 1100101).")

/-- The value of a `'0'`/`'1'` string read in base 2, i.e. Python's
`int(bits, 2)` on binary strings; used by the claims' round-trip
statements and by `bits_to_int`. -/
def binVal (l : List Char) : Nat :=
  l.foldl (fun a c => 2 * a + (if c = '1' then 1 else 0)) 0

/-- Models Python's `str.lower()` on the ASCII rule names that occur in
parity rules. -/
def pyLower (s : String) : String := ⟨s.data.map Char.toLower⟩

/-- `extract_bits(binary_string, start, end)`: Python's
`binary_string[start:end+1]`, an inclusive-end slice.  For the
non-negative indices a normalized format carries, `b[start:end+1]` keeps
the characters at positions `start ≤ i < min (end+1) (len b)` — the slice
silently clamps to the string, it never raises. -/
def extract_bits (b : List Char) (s e : Nat) : List Char :=
  (b.take (e + 1)).drop s

/-- `bits_to_int(bits)`: `int(bits, 2) if bits else 0`.  The slices this is
applied to consist of `'0'`/`'1'` characters, where `int(bits, 2)` is
`binVal`. -/
def bits_to_int (bits : List Char) : Nat :=
  if bits.isEmpty then 0 else binVal bits

/-- Big-endian hexadecimal digits of `v` (uppercase), empty for `0`; the
first argument is structural-recursion fuel (any fuel `≥ v` works). -/
def toHexAux : Nat → Nat → List Char
  | 0, _ => []
  | fuel + 1, v =>
    if v = 0 then []
    else toHexAux fuel (v / 16) ++ ["0123456789ABCDEF".toList.getD (v % 16) '0']

/-- Models Python's `f"{v:X}"` for `v ≥ 0`: uppercase hexadecimal digits
with no fixed width, `"0"` for zero. -/
def natToHexUpper (v : Nat) : List Char :=
  if v = 0 then ['0'] else toHexAux v v

/-- One parity rule of a normalized format: an entry of the
`parity_coverage` list built by `App._normalize_formats`
(`{"type": typ, "ranges": ranges}` with `typ` already lower-cased and
`ranges` non-empty). -/
structure ParityRule where
  type : String
  ranges : List (Nat × Nat)
deriving DecidableEq

/-- A normalized format: the value `App._normalize_formats` stores per name
(`{"bit_length": bitlen, "fields": fields, "parity_coverage": parity_cov}`).
`fields` is a Python dict keyed by field name, insertion-ordered with
later duplicates overwriting; it is modelled as the ordered association
list the dict comprehension produces (no claim involves duplicate field
names).  Field indices are the non-negative integers all catalog formats
carry. -/
structure Fmt where
  bit_length : Nat
  fields : List (String × Nat × Nat)
  parity_coverage : List ParityRule
deriving DecidableEq

/-- One per-field record built by `extract_fields`:
`{"bits", "int", "hex", "len", "range"}`.  `len` is the Python integer
`end - start + 1`, hence `Int`. -/
structure FieldEntry where
  bits : List Char
  int : Nat
  hex : List Char
  len : Int
  range : Nat × Nat
deriving DecidableEq

/-- `extract_fields(binary_string, fmt_obj)` from the source, in the field
order of the format. -/
def extract_fields (b : List Char) (fmt : Fmt) : List (String × FieldEntry) :=
  fmt.fields.map (fun f =>
    let bits := extract_bits b f.2.1 f.2.2
    (f.1,
      { bits := bits
        int := bits_to_int bits
        hex := '0' :: 'x' :: natToHexUpper (bits_to_int bits)
        len := (f.2.2 : Int) - f.2.1 + 1
        range := (f.2.1, f.2.2) }))

/-- `parity_even_bit_needed(bits)`:
`ones = bits.count('1'); return 0 if ones % 2 == 0 else 1`. -/
def parity_even_bit_needed (bits : List Char) : Nat :=
  let ones := bits.count '1'
  if ones % 2 = 0 then 0 else 1

/-- `parity_odd_bit_needed(bits)`:
`ones = bits.count('1'); return 1 if ones % 2 == 0 else 0`. -/
def parity_odd_bit_needed (bits : List Char) : Nat :=
  let ones := bits.count '1'
  if ones % 2 = 0 then 1 else 0

/-- One entry appended by `verify_parity`: the dict literal with keys
`label`, `type`, `coverage`, `expected`, `actual`, `ok`, `data_len`.
`actual` and `ok` are written as the literal `None` in the source, so they
are `Option`s here. -/
structure ParityCheck where
  label : String
  type : String
  coverage : Nat × Nat
  expected : Nat
  actual : Option Nat
  ok : Option Bool
  data_len : Nat
deriving DecidableEq

/-- `verify_parity(binary_string, fmt_obj)` on a normalized format.
`coverage = fmt_obj.get("parity_coverage")` is always the list
`_normalize_formats` built (the `isinstance(coverage, dict)` branch
handles a legacy shape no normalized format has); an empty (falsy) list
returns `[]`.  The nested `for rule / for (s, e)` loops append one entry
per covered range, modelled by `flatMap` of `map`. -/
def verify_parity (b : List Char) (fmt : Fmt) : List ParityCheck :=
  if fmt.parity_coverage.isEmpty then []
  else
    fmt.parity_coverage.flatMap (fun rule =>
      let typ := pyLower rule.type
      rule.ranges.map (fun r =>
        let data_bits := extract_bits b r.1 r.2
        let expected :=
          if typ = "even" then parity_even_bit_needed data_bits
          else parity_odd_bit_needed data_bits
        { label := if typ = "even" then "Even Parity" else "Odd Parity"
          type := typ
          coverage := (r.1, r.2)
          expected := expected
          actual := none
          ok := none
          data_len := data_bits.length }))

/-- `App._detect_formats(binary_string)`: one pass over the catalog
(`self.FORMATS.items()`, an insertion-ordered dict modelled as an
association list), appending to `exact` when `n == L` and to `compatible`
when `n > L`. -/
def detect_formats (b : List Char) (catalog : List (String × Fmt)) :
    List (String × Fmt) × List (String × Fmt) :=
  let n := b.length
  catalog.foldl (fun acc nf =>
    if n = nf.2.bit_length then (acc.1 ++ [nf], acc.2)
    else if n > nf.2.bit_length then (acc.1, acc.2 ++ [nf])
    else acc) ([], [])

/-- `App._parity_all_ok(binary_string, fmt)`:
`pv = verify_parity(...); if not pv: return True; return all(r.get("ok", True) for r in pv)`.
Every entry `verify_parity` builds carries the key `"ok"`, so
`r.get("ok", True)` returns the stored value (the default `True` is dead);
Python's `all` then tests its truthiness, under which the stored `None` is
falsy, exactly like a stored `False`. -/
def parity_all_ok (b : List Char) (fmt : Fmt) : Bool :=
  let pv := verify_parity b fmt
  if pv.isEmpty then true
  else pv.all (fun r => match r.ok with | some bo => bo | none => false)

/-- Models Python's `b[-L:]` for `L ≥ 0`: for `L = 0` the index `-0` is
`0`, so the whole string is returned; otherwise the last `min L (len b)`
characters. -/
def pySliceLast (b : List Char) (L : Nat) : List Char :=
  if L = 0 then b else b.drop (b.length - L)

/-- The compatible-match window of `App.on_calculate`:
`use_bits = binary_string[:L] if self.slice_mode.get()=="left" else binary_string[-L:]`. -/
def use_bits (mode : String) (b : List Char) (L : Nat) : List Char :=
  if mode = "left" then b.take L else pySliceLast b L

/-- The bit window `App.on_calculate` hands to `_render_format` for one
catalog format: exact-length matches (`n == L`, the `exact` list of
`_detect_formats`) use `binary_string` itself, compatible matches
(`n > L`) use `use_bits`, shorter formats are not rendered at all. -/
def window_for_format (b : List Char) (fmt : Fmt) (mode : String) : Option (List Char) :=
  if b.length = fmt.bit_length then some b
  else if b.length > fmt.bit_length then some (use_bits mode b fmt.bit_length)
  else none

/-- Modelled from the spec: the overall-pass predicate of §4.6 / the design
note of §9, under which an entry with unknown status (`ok = None`) does
not block a pass verdict.  The repository's `_parity_all_ok` is the only
implementation of this predicate in the source; this definition follows
the spec's words for comparison with it. -/
def parity_all_ok_nonblocking (b : List Char) (fmt : Fmt) : Bool :=
  let pv := verify_parity b fmt
  if pv.isEmpty then true
  else pv.all (fun r => match r.ok with | some bo => bo | none => true)

/-- Modelled from the spec: §4.5/§7 demand that field extraction fail
loudly with a `FieldOutOfRange` error whenever a field's inclusive range
exceeds the bit string (`end >= len(bits)`; `start < 0` cannot arise with
the non-negative indices of a normalized format).  The source has no such
error path; this definition follows the spec's words for comparison with
the source's `extract_fields`. -/
def extract_fields_loud (b : List Char) (fmt : Fmt) :
    Except String (List (String × FieldEntry)) :=
  if fmt.fields.all (fun f => f.2.2 < b.length) then .ok (extract_fields b fmt)
  else .error "FieldOutOfRange"

/-- "H10301 - 26-bit" as normalized by `App._normalize_formats` from
`DEFAULT_FORMATS`. -/
def h10301fmt : Fmt :=
  { bit_length := 26
    fields := [("Parity L", 0, 0), ("Facility", 1, 8), ("Card", 9, 24), ("Parity R", 25, 25)]
    parity_coverage := [⟨"even", [(1, 12)]⟩, ⟨"odd", [(13, 24)]⟩] }

/-- "CSN - 32-bit (4-byte)" as normalized by `App._normalize_formats` from
`DEFAULT_FORMATS`: its `parity` list is empty, so `parity_coverage` is
empty. -/
def csn32fmt : Fmt :=
  { bit_length := 32
    fields := [("CSN", 0, 31)]
    parity_coverage := [] }

/-- A malformed format: one field whose inclusive range [1, 5] exceeds a
3-bit input. -/
def fmtBad : Fmt :=
  { bit_length := 26
    fields := [("F", 1, 5)]
    parity_coverage := [] }

/-- A 26-bit all-zero input. -/
def zeros26 : List Char := List.replicate 26 '0'

/-- A 32-bit all-zero input. -/
def zeros32 : List Char := List.replicate 32 '0'

/-- A 30-bit input for the slice-selection claim. -/
def bits30 : List Char := "101010101010101010101010101010".toList

/-- The first entry `verify_parity` produces for `zeros26` against
H10301. -/
def sampleCheck : ParityCheck :=
  { label := "Even Parity", type := "even", coverage := (1, 12), expected := 0,
    actual := none, ok := none, data_len := 12 }

lemma hexLookup_some_mem :
    ∀ (l : List (Char × Nat)) (c : Char) (d : Nat),
      hexLookup l c = some d → ∃ p ∈ l, c = p.1 ∧ d = p.2 := by
  intro l
  induction l with
  | nil => intro c d h; simp [hexLookup] at h
  | cons hd tl ih =>
    obtain ⟨k, v⟩ := hd
    intro c d h
    simp only [hexLookup] at h
    split at h
    · exact ⟨(k, v), by simp, by simp_all⟩
    · obtain ⟨p, hp, h1, h2⟩ := ih c d h
      exact ⟨p, by simp [hp], h1, h2⟩

lemma hexVal_facts {c : Char} {d : Nat} (h : hexVal c = some d) :
    d < 16 ∧ isPySpace c = false ∧ sepB c = false := by
  obtain ⟨p, hp, rfl, rfl⟩ := hexLookup_some_mem hexPairs c d h
  fin_cases hp <;> refine ⟨by decide, by decide, by decide⟩

lemma hex_char_not_space {c : Char} (h : (hexVal c).isSome = true) :
    isPySpace c = false := by
  obtain ⟨d, hd⟩ := Option.isSome_iff_exists.mp h
  exact (hexVal_facts hd).2.1

lemma hex_char_not_sep {c : Char} (h : (hexVal c).isSome = true) :
    sepB c = false := by
  obtain ⟨d, hd⟩ := Option.isSome_iff_exists.mp h
  exact (hexVal_facts hd).2.2

lemma dropWhile_eq_self_of_all {p : Char → Bool} {l : List Char}
    (h : ∀ c ∈ l, p c = false) : l.dropWhile p = l := by
  cases l with
  | nil => rfl
  | cons a t => simp [List.dropWhile_cons, h a (by simp)]

lemma pyStrip_eq_self {l : List Char} (h : ∀ c ∈ l, isPySpace c = false) :
    pyStrip l = l := by
  unfold pyStrip
  rw [dropWhile_eq_self_of_all h, dropWhile_eq_self_of_all, List.reverse_reverse]
  intro c hc
  exact h c (List.mem_reverse.mp hc)

lemma removeSeps_eq_self {l : List Char} (h : ∀ c ∈ l, sepB c = false) :
    removeSeps l = l := by
  unfold removeSeps
  exact List.filter_eq_self.mpr (fun a ha => by simp [h a ha])

lemma int16_fold_bound :
    ∀ (l : List Char) (a : Nat), (∀ c ∈ l, (hexVal c).isSome = true) →
      ∃ v, l.foldl (fun acc c => acc.bind (fun x => (hexVal c).map (fun d => 16 * x + d)))
        (some a) = some v ∧ v < (a + 1) * 16 ^ l.length := by
  intro l
  induction l with
  | nil => intro a _; exact ⟨a, rfl, by simp⟩
  | cons c tl ih =>
    intro a hall
    have hc : (hexVal c).isSome = true := hall c (by simp)
    obtain ⟨d, hd⟩ := Option.isSome_iff_exists.mp hc
    have hd16 : d < 16 := (hexVal_facts hd).1
    obtain ⟨v, hv, hvb⟩ := ih (16 * a + d) (fun x hx => hall x (by simp [hx]))
    refine ⟨v, ?_, ?_⟩
    · simpa [hd] using hv
    · calc v < (16 * a + d + 1) * 16 ^ tl.length := hvb
        _ ≤ (16 * a + 16) * 16 ^ tl.length := Nat.mul_le_mul_right _ (by omega)
        _ = (a + 1) * 16 ^ (c :: tl).length := by simp [List.length_cons]; ring

lemma int16_of_hex {H : List Char} (h : is_hex H = true) :
    ∃ v, int16 H = some v ∧ v < 16 ^ H.length := by
  rw [is_hex, Bool.and_eq_true] at h
  obtain ⟨hall, hne⟩ := h
  have hne' : H.isEmpty = false := by simpa using hne
  obtain ⟨v, hv, hb⟩ :=
    int16_fold_bound H 0 (fun c hc => List.all_eq_true.mp hall c hc)
  exact ⟨v, by simp [int16, hne', hv], by simpa using hb⟩

lemma binVal_append_bit (l : List Char) (c : Char) :
    binVal (l ++ [c]) = 2 * binVal l + (if c = '1' then 1 else 0) := by
  simp [binVal, List.foldl_append]

lemma toBinAux_val : ∀ fuel v : Nat, v ≤ fuel → binVal (toBinAux fuel v) = v := by
  intro fuel
  induction fuel with
  | zero =>
    intro v hv
    have : v = 0 := by omega
    simp [this, toBinAux, binVal]
  | succ f ih =>
    intro v hv
    by_cases h0 : v = 0
    · simp [toBinAux, h0, binVal]
    · have hlt : v / 2 < v := Nat.div_lt_self (by omega) (by omega)
      rw [toBinAux, if_neg h0, binVal_append_bit, ih _ (by omega)]
      rcases Nat.mod_two_eq_zero_or_one v with h | h <;> rw [h] <;> simp <;> omega

lemma natToBin_val (v : Nat) : binVal (natToBin v) = v := by
  unfold natToBin
  by_cases h : v = 0
  · subst h; decide
  · rw [if_neg h]; exact toBinAux_val v v le_rfl

lemma toBinAux_len :
    ∀ fuel v k : Nat, v ≤ fuel → v < 2 ^ k → (toBinAux fuel v).length ≤ k := by
  intro fuel
  induction fuel with
  | zero => intro v k _ _; simp [toBinAux]
  | succ f ih =>
    intro v k hv hk
    by_cases h0 : v = 0
    · simp [toBinAux, h0]
    · obtain ⟨k', rfl⟩ : ∃ k', k = k' + 1 := by
        cases k with
        | zero => exact absurd (by simpa using hk) (by omega)
        | succ k' => exact ⟨k', rfl⟩
      have hlt : v / 2 < v := Nat.div_lt_self (by omega) (by omega)
      have hdiv2 : v / 2 < 2 ^ k' := by
        apply Nat.div_lt_of_lt_mul
        rw [Nat.mul_comm, ← pow_succ]
        exact hk
      have := ih (v / 2) k' (by omega) hdiv2
      rw [toBinAux, if_neg h0]
      simp only [List.length_append, List.length_cons, List.length_nil]
      omega

lemma natToBin_len_le {v k : Nat} (hk : 1 ≤ k) (h : v < 2 ^ k) :
    (natToBin v).length ≤ k := by
  unfold natToBin
  by_cases h0 : v = 0
  · rw [if_pos h0]; simpa using hk
  · rw [if_neg h0]; exact toBinAux_len v v k le_rfl h

lemma zfill_length {l : List Char} {n : Nat} (h : l.length ≤ n) :
    (zfill l n).length = n := by
  simp [zfill]
  omega

lemma binVal_zfill (l : List Char) (n : Nat) : binVal (zfill l n) = binVal l := by
  unfold zfill
  generalize n - l.length = k
  induction k with
  | zero => simp
  | succ k ih =>
    rw [List.replicate_succ, List.cons_append]
    unfold binVal at ih ⊢
    simp only [List.foldl_cons]
    rw [show (2 * 0 + if ('0' : Char) = '1' then 1 else 0) = 0 from by decide]
    exact ih

lemma detect_formats_aux (n : Nat) :
    ∀ (cat : List (String × Fmt)) (e c : List (String × Fmt)),
      cat.foldl (fun acc nf =>
        if n = nf.2.bit_length then (acc.1 ++ [nf], acc.2)
        else if n > nf.2.bit_length then (acc.1, acc.2 ++ [nf])
        else acc) (e, c)
      = (e ++ cat.filter (fun nf => decide (n = nf.2.bit_length)),
         c ++ cat.filter (fun nf => decide (nf.2.bit_length < n))) := by
  intro cat
  induction cat with
  | nil => simp
  | cons hd tl ih =>
    intro e c
    simp only [List.foldl_cons, List.filter_cons]
    by_cases h1 : n = hd.2.bit_length
    · rw [if_pos h1]
      rw [ih]
      simp [h1]
    · rw [if_neg h1]
      by_cases h2 : n > hd.2.bit_length
      · rw [if_pos h2, ih]
        have : ¬(n = hd.2.bit_length) := h1
        simp [this, h2]
      · rw [if_neg h2, ih]
        have hh : ¬(hd.2.bit_length < n) := h2
        simp [h1, hh]

/-- C1 (code bug): the spec's overall-pass predicate treats entries with
unknown status (`ok = None`) as non-blocking, and the source's own
default-`True` in `r.get("ok", True)` shows the same intent; but every
entry `verify_parity` builds stores `ok = None`, which Python's `all`
treats as falsy.  On the 26-bit all-zero input against the default H10301
format, every parity entry is indeterminate, the spec's predicate passes,
yet `_parity_all_ok` returns `False`. -/
theorem parity_all_ok_blocks_indeterminate :
    parity_all_ok zeros26 h10301fmt = false ∧
    (verify_parity zeros26 h10301fmt).map ParityCheck.ok = [none, none] ∧
    parity_all_ok_nonblocking zeros26 h10301fmt = true := by
  decide

/-- C4: the expected even-parity bit is `0` iff the count of `'1'`
characters in the data bits is even, the expected odd-parity bit is its
complement, and in both cases the total number of set bits including the
expected parity bit has the announced parity (even total for an even rule,
odd total for an odd rule). -/
theorem parity_bit_needed_correct (d : List Char) :
    parity_even_bit_needed d = (if d.count '1' % 2 = 0 then 0 else 1) ∧
    parity_odd_bit_needed d = (if d.count '1' % 2 = 0 then 1 else 0) ∧
    (d.count '1' + parity_even_bit_needed d) % 2 = 0 ∧
    (d.count '1' + parity_odd_bit_needed d) % 2 = 1 := by
  unfold parity_even_bit_needed parity_odd_bit_needed
  rcases Nat.mod_two_eq_zero_or_one (d.count '1') with h | h <;> simp [h] <;> omega

/-- C5: `_detect_formats` partitions the catalog by comparing the input
length to each entry's `bit_length`: the exact list is exactly the
catalog entries with equal bit length in catalog order, the compatible
list exactly those with strictly smaller bit length in catalog order, and
an entry belongs to a result list iff it is a catalog entry satisfying the
corresponding comparison — so a format whose bit length exceeds the input
length appears in neither list. -/
theorem detect_formats_partition (b : List Char) (catalog : List (String × Fmt)) :
    detect_formats b catalog =
      (catalog.filter (fun nf => decide (b.length = nf.2.bit_length)),
       catalog.filter (fun nf => decide (nf.2.bit_length < b.length))) ∧
    (∀ nf, nf ∈ (detect_formats b catalog).1 ↔
      nf ∈ catalog ∧ b.length = nf.2.bit_length) ∧
    (∀ nf, nf ∈ (detect_formats b catalog).2 ↔
      nf ∈ catalog ∧ nf.2.bit_length < b.length) := by
  have key : detect_formats b catalog =
      (catalog.filter (fun nf => decide (b.length = nf.2.bit_length)),
       catalog.filter (fun nf => decide (nf.2.bit_length < b.length))) := by
    unfold detect_formats
    simpa using detect_formats_aux b.length catalog [] []
  refine ⟨key, ?_, ?_⟩ <;> intro nf <;> rw [key] <;> simp [List.mem_filter]

/-- C7: a normalized format whose parity rule list is empty (such as the
raw CSN profiles) produces zero ParityCheck entries and is always
considered parity-passing by `_parity_all_ok`. -/
theorem empty_parity_rules_pass (b : List Char) (fmt : Fmt)
    (h : fmt.parity_coverage = []) :
    verify_parity b fmt = [] ∧ parity_all_ok b fmt = true := by
  constructor
  · simp [verify_parity, h]
  · simp [parity_all_ok, verify_parity, h]

/-- Witness for C7: the 32-bit CSN profile with a 32-bit all-zero input. -/
theorem empty_parity_rules_pass_witness :
    verify_parity zeros32 csn32fmt = [] ∧ parity_all_ok zeros32 csn32fmt = true :=
  empty_parity_rules_pass zeros32 csn32fmt rfl

/-- C8: every entry `verify_parity` returns has `actual = None` and
`ok = None` — the evaluator never assigns a concrete actual parity bit or
a concrete pass/fail verdict, whatever the format's fields are. -/
theorem verify_parity_entries_indeterminate (b : List Char) (fmt : Fmt)
    (r : ParityCheck) (h : r ∈ verify_parity b fmt) :
    r.actual = none ∧ r.ok = none := by
  unfold verify_parity at h
  split at h
  · simp at h
  · simp only [List.mem_flatMap, List.mem_map] at h
    obtain ⟨rule, -, rg, -, rfl⟩ := h
    exact ⟨rfl, rfl⟩

/-- Witness for C8: the first entry produced for the all-zero 26-bit input
against H10301. -/
theorem verify_parity_entries_indeterminate_witness :
    sampleCheck.actual = none ∧ sampleCheck.ok = none :=
  verify_parity_entries_indeterminate zeros26 h10301fmt sampleCheck (by decide)

/-- C6: for a compatible match (format bit length `L` positive, input
strictly longer), the leftmost window is the first `L` bits and the
rightmost window the last `L` bits, each of exactly `L` bits; an
exact-length match hands the full bit string on unmodified for any slice
mode.  (`0 < L` is the spec's FormatDefinition invariant
`bit_length > 0`.) -/
theorem slice_selection_windows (b : List Char) (fmt : Fmt)
    (hpos : 0 < fmt.bit_length) :
    (fmt.bit_length < b.length →
      window_for_format b fmt "left" = some (b.take fmt.bit_length) ∧
      (b.take fmt.bit_length).length = fmt.bit_length ∧
      window_for_format b fmt "right" = some (b.drop (b.length - fmt.bit_length)) ∧
      (b.drop (b.length - fmt.bit_length)).length = fmt.bit_length) ∧
    (b.length = fmt.bit_length → ∀ mode, window_for_format b fmt mode = some b) := by
  constructor
  · intro hlt
    have hne : ¬(b.length = fmt.bit_length) := by omega
    refine ⟨?_, ?_, ?_, ?_⟩
    · rw [window_for_format, if_neg hne, if_pos (by omega)]
      rw [use_bits, if_pos rfl]
    · rw [List.length_take]
      omega
    · rw [window_for_format, if_neg hne, if_pos (by omega)]
      rw [use_bits, if_neg (by decide), pySliceLast, if_neg (by omega)]
    · rw [List.length_drop]
      omega
  · intro heq mode
    rw [window_for_format, if_pos heq]

/-- Witness for C6: the 30-bit input against the 26-bit H10301 format. -/
theorem slice_selection_windows_witness :
    window_for_format bits30 h10301fmt "left" = some (bits30.take h10301fmt.bit_length) ∧
    (bits30.take h10301fmt.bit_length).length = h10301fmt.bit_length ∧
    window_for_format bits30 h10301fmt "right" =
      some (bits30.drop (bits30.length - h10301fmt.bit_length)) ∧
    (bits30.drop (bits30.length - h10301fmt.bit_length)).length = h10301fmt.bit_length :=
  (slice_selection_windows bits30 h10301fmt (by decide)).1 (by decide)

/-- Counterexample to C2: extracting the field `[1, 5]` from the 3-bit
string `"101"` does not raise any error — the source has no
`FieldOutOfRange` path — but produces the silently clamped substring
`"01"` with decoded value `1`; the loud extractor the spec demands errors
on the same input. -/
theorem extract_no_loud_failure_counterexample :
    ("101".toList).length ≤ 5 ∧
    extract_fields "101".toList fmtBad =
      [("F", { bits := ['0', '1'], int := 1, hex := ['0', 'x', '1'],
               len := 5, range := (1, 5) })] ∧
    extract_fields_loud "101".toList fmtBad = .error "FieldOutOfRange" :=
  ⟨by decide, by decide, rfl⟩

/-- C2 amended: extraction does not fail loudly; for a field whose
inclusive end reaches past the bit string (`end ≥ len(b)`; `start < 0`
cannot arise with a normalized format's non-negative indices), the slice
silently clamps to `b[start:len(b)]` and `extract_fields` still produces
a decoded entry for the field. -/
theorem extract_clamps_out_of_range (b : List Char) (s e : Nat)
    (h : b.length ≤ e) :
    extract_bits b s e = b.drop s ∧
    (∀ (fmt : Fmt) (nm : String), (nm, s, e) ∈ fmt.fields →
      ∃ entry, (nm, entry) ∈ extract_fields b fmt ∧
        entry.bits = b.drop s ∧ entry.int = bits_to_int (b.drop s)) := by
  have htake : b.take (e + 1) = b := List.take_of_length_le (by omega)
  constructor
  · rw [extract_bits, htake]
  · intro fmt nm hmem
    refine ⟨_, List.mem_map.mpr ⟨(nm, s, e), hmem, rfl⟩, ?_, ?_⟩ <;>
      simp [extract_bits, htake]

/-- Witness for the amended C2: the field `[1, 5]` against `"101"`. -/
theorem extract_clamps_out_of_range_witness :
    extract_bits "101".toList 1 5 = "101".toList.drop 1 ∧
    (∃ entry, ("F", entry) ∈ extract_fields "101".toList fmtBad ∧
      entry.bits = "101".toList.drop 1 ∧
      entry.int = bits_to_int ("101".toList.drop 1)) :=
  ⟨(extract_clamps_out_of_range "101".toList 1 5 (by decide)).1,
   (extract_clamps_out_of_range "101".toList 1 5 (by decide)).2 fmtBad "F" (by decide)⟩

/-- C9: `extract_fields` returns normally even when a field's inclusive
end reaches past the bit string: the field's bits are silently truncated
to `b[start:len(b)]` (empty, with integer value `0`, when `start` is also
past the end), while the reported `len` is still `end - start + 1`, which
strictly exceeds the length of the reported bits substring. -/
theorem extract_fields_truncates (b : List Char) (fmt : Fmt) (nm : String)
    (s e : Nat) (hmem : (nm, s, e) ∈ fmt.fields) (hlen : b.length ≤ e)
    (hse : s ≤ e) :
    ∃ entry, (nm, entry) ∈ extract_fields b fmt ∧
      entry.bits = b.drop s ∧
      entry.int = bits_to_int (b.drop s) ∧
      entry.len = (e : Int) - s + 1 ∧
      (entry.bits.length : Int) < entry.len ∧
      (b.length ≤ s → entry.bits = [] ∧ entry.int = 0) := by
  have htake : b.take (e + 1) = b := List.take_of_length_le (by omega)
  refine ⟨_, List.mem_map.mpr ⟨(nm, s, e), hmem, rfl⟩, ?_, ?_, ?_, ?_, ?_⟩
  · simp [extract_bits, htake]
  · simp [extract_bits, htake]
  · simp
  · simp [extract_bits, htake, List.length_drop]
    omega
  · intro hs
    have hnil : b.drop s = [] := List.drop_eq_nil_iff.mpr hs
    constructor
    · simp [extract_bits, htake, hnil]
    · simp [extract_bits, htake, hnil, bits_to_int]

/-- Witness for C9: the field `[1, 5]` against the 3-bit string `"101"`. -/
theorem extract_fields_truncates_witness :
    ∃ entry, ("F", entry) ∈ extract_fields "101".toList fmtBad ∧
      entry.bits = "101".toList.drop 1 ∧
      entry.int = bits_to_int ("101".toList.drop 1) ∧
      entry.len = (5 : Int) - 1 + 1 ∧
      (entry.bits.length : Int) < entry.len ∧
      (("101".toList).length ≤ 1 → entry.bits = [] ∧ entry.int = 0) :=
  extract_fields_truncates "101".toList fmtBad "F" 1 5 (by decide) (by decide)
    (by decide)

/-- Counterexample to C3: `H = "10"` is a valid hex string, but after the
`0x` marker is stripped the string is classified as binary first, so
`process_input "0x10"` returns the two-character bit string `"10"` — not
8 bits, and with value 2, not `int("10", 16) = 16`. -/
theorem hex_roundtrip_counterexample :
    is_hex ['1', '0'] = true ∧
    process_input ['0', 'x', '1', '0'] = (some ['1', '0'], none) ∧
    int16 ['1', '0'] = some 16 ∧
    (['1', '0'] : List Char).length ≠ 4 * (['1', '0'] : List Char).length ∧
    binVal ['1', '0'] ≠ 16 := by
  decide

/-- C3 amended: for every valid hex string `H` that contains at least one
character other than `'0'`/`'1'` (so that the binary-first classification
cannot capture it), `process_input ("0x" + H)` succeeds with a bit string
of length exactly `4 * len(H)` whose base-2 value is `int(H, 16)`. -/
theorem hex_roundtrip_amended (H : List Char) (hhex : is_hex H = true)
    (hnb : ∃ c ∈ H, ¬(c = '0' ∨ c = '1')) :
    ∃ bs v, process_input ('0' :: 'x' :: H) = (some bs, none) ∧
      int16 H = some v ∧ bs.length = 4 * H.length ∧ binVal bs = v := by
  have hall : ∀ c ∈ H, (hexVal c).isSome = true := by
    have h := hhex
    rw [is_hex, Bool.and_eq_true] at h
    exact List.all_eq_true.mp h.1
  have hne : H ≠ [] := by
    have h := hhex
    rw [is_hex, Bool.and_eq_true] at h
    intro hn
    rw [hn] at h
    simp at h
  have hL : 1 ≤ H.length := List.length_pos.mpr hne
  obtain ⟨v, hv, hvb⟩ := int16_of_hex hhex
  have hstrip : clean_input ('0' :: 'x' :: H) = '0' :: 'x' :: H := by
    apply pyStrip_eq_self
    intro c hc
    simp only [List.mem_cons] at hc
    rcases hc with rfl | rfl | hc
    · decide
    · decide
    · exact hex_char_not_space (hall c hc)
  have hsep : removeSeps ('0' :: 'x' :: H) = '0' :: 'x' :: H := by
    apply removeSeps_eq_self
    intro c hc
    simp only [List.mem_cons] at hc
    rcases hc with rfl | rfl | hc
    · decide
    · decide
    · exact hex_char_not_sep (hall c hc)
  have hpre : preprocess ('0' :: 'x' :: H) = H := by
    unfold preprocess clean_input at hstrip ⊢
    rw [hstrip, hsep]
    rfl
  obtain ⟨c0, hc0m, hc0⟩ := hnb
  have hbin : is_binary H = false := by
    rw [is_binary]
    have hap : H.all (fun c => c == '0' || c == '1') = false := by
      cases hA : H.all (fun c => c == '0' || c == '1')
      · rfl
      · exfalso
        have := List.all_eq_true.mp hA c0 hc0m
        simp at this
        exact hc0 this
    rw [hap, Bool.false_and]
  have hh2b : hex_to_binary H = some (zfill (natToBin v) (4 * H.length)) := by
    rw [hex_to_binary, hv]
  have hlenz : (zfill (natToBin v) (4 * H.length)).length = 4 * H.length := by
    apply zfill_length
    apply natToBin_len_le (by omega)
    calc v < 16 ^ H.length := hvb
      _ = 2 ^ (4 * H.length) := by
          rw [show (16 : Nat) = 2 ^ 4 from rfl, ← pow_mul]
  refine ⟨zfill (natToBin v) (4 * H.length), v, ?_, hv, hlenz, ?_⟩
  · simp only [process_input, hpre, hbin, hhex, hh2b]
    simp
  · rw [binVal_zfill]
    exact natToBin_val v

/-- Witness for the amended C3: `H = "1A"`. -/
theorem hex_roundtrip_amended_witness :
    ∃ bs v, process_input ('0' :: 'x' :: ['1', 'A']) = (some bs, none) ∧
      int16 ['1', 'A'] = some v ∧
      bs.length = 4 * (['1', 'A'] : List Char).length ∧ binVal bs = v :=
  hex_roundtrip_amended ['1', 'A'] (by decide) ⟨'A', by decide, by decide⟩

/-- C10: for every non-empty all-hex string, `hex_to_binary` returns a bit
string (never `None`), so the `"Invalid hex input."` branch of
`process_input` is unreachable; `process_input` fails only with the
`"Input must be hex or binary"` message, and only when the stripped
string is empty or contains a non-hex character. -/
theorem process_input_error_only_nonhex :
    (∀ s : List Char, is_hex s = true → (hex_to_binary s).isSome = true) ∧
    (∀ (raw : List Char) (msg : String), (process_input raw).2 = some msg →
      msg = "Input must be hex or binary (e.g., 0x1A2B, 1100101)." ∧
      is_hex (preprocess raw) = false ∧
      (preprocess raw = [] ∨ ∃ c ∈ preprocess raw, (hexVal c).isSome = false)) := by
  have part1 : ∀ s : List Char, is_hex s = true → (hex_to_binary s).isSome = true := by
    intro s hs
    obtain ⟨v, hv, -⟩ := int16_of_hex hs
    rw [hex_to_binary, hv]
    rfl
  refine ⟨part1, ?_⟩
  intro raw msg h
  by_cases hb : is_binary (preprocess raw) = true
  · exfalso
    simp only [process_input] at h
    rw [if_pos hb] at h
    simp at h
  · by_cases hx : is_hex (preprocess raw) = true
    · exfalso
      obtain ⟨bts, hbts⟩ := Option.isSome_iff_exists.mp (part1 _ hx)
      simp only [process_input] at h
      rw [if_neg hb, if_pos hx, hbts] at h
      simp at h
    · have hxf : is_hex (preprocess raw) = false := by
        revert hx
        cases is_hex (preprocess raw) <;> simp
      simp only [process_input] at h
      rw [if_neg hb, if_neg hx] at h
      refine ⟨(Option.some.inj h).symm, hxf, ?_⟩
      by_cases hE : preprocess raw = []
      · exact Or.inl hE
      · right
        have hie : (preprocess raw).isEmpty = false := by simpa using hE
        have hA : (preprocess raw).all (fun c => (hexVal c).isSome) = false := by
          cases hA : (preprocess raw).all (fun c => (hexVal c).isSome)
          · rfl
          · exfalso
            rw [is_hex, hA, hie] at hxf
            simp at hxf
        obtain ⟨c, hcm, hcp⟩ := List.all_eq_false.mp hA
        exact ⟨c, hcm, by simpa using hcp⟩

/-- Witness for C10: the hex string `"1A"` converts, and the raw input
`"z"` fails with the must-be-hex-or-binary message on a non-hex
character. -/
theorem process_input_error_only_nonhex_witness :
    (hex_to_binary ['1', 'A']).isSome = true ∧
    (("Input must be hex or binary (e.g., 0x1A2B, 1100101)." : String) =
        "Input must be hex or binary (e.g., 0x1A2B, 1100101)." ∧
      is_hex (preprocess ['z']) = false ∧
      (preprocess ['z'] = [] ∨ ∃ c ∈ preprocess ['z'], (hexVal c).isSome = false)) :=
  ⟨process_input_error_only_nonhex.1 ['1', 'A'] (by decide),
   process_input_error_only_nonhex.2 ['z'] _ (by decide)⟩

end BinarySlicer
